import Mathlib

/-!
# Verification of the recitation-companion streaming core

Shallow embedding of the repository's streaming/audio core (`src/App.tsx`,
`src/types.ts`): the playback scheduler driven by the `onmessage` callback,
the transcript accumulation, `startRecitation` / `stopRecitation`, and the
binary-to-text transport codec.

Times on the output audio clock are modelled as rationals (the browser gives
real-valued seconds; only `max`, `+` and `≤` are used by the code).
-/

namespace Quran

/-! ## Binary-to-text transport codec

`decode`/`encode` are imported by `src/App.tsx` from `./services/audioUtils`,
a file that is not part of the repository snapshot; only its callers are.
Modelled from the spec: "binary-to-text transcoding for transport" /
"`encodeBytesToText(bytes) -> text`, `decodeTextToBytes(text) -> bytes`:
lossless, deterministic, invertible", with base64 as the named example
encoding ("e.g. base64"). Bytes are naturals below 256. -/

/-- The 64-character base64 alphabet. -/
def b64chars : List Char :=
  "ABCDEFGHIJKLMNOPQRSTUVWXYZabcdefghijklmnopqrstuvwxyz0123456789+/".toList

/-- Character of one six-bit group. -/
def encChar (n : Nat) : Char := b64chars.getD n 'A'

/-- Inverse alphabet lookup; `none` when the character is not in the alphabet. -/
def decChar (c : Char) : Option Nat :=
  let i := b64chars.findIdx (fun x => x == c)
  if i < 64 then some i else none

/-- Modelled from the spec: base64 encoding of a byte sequence (three bytes
to four characters, `=`-padded tail). -/
def encodeBytesToText : List Nat → List Char
  | [] => []
  | [b1] =>
      [encChar (b1 / 4), encChar (b1 % 4 * 16), '=', '=']
  | [b1, b2] =>
      [encChar (b1 / 4), encChar (b1 % 4 * 16 + b2 / 16), encChar (b2 % 16 * 4), '=']
  | b1 :: b2 :: b3 :: rest =>
      encChar (b1 / 4) :: encChar (b1 % 4 * 16 + b2 / 16) ::
      encChar (b2 % 16 * 4 + b3 / 64) :: encChar (b3 % 64) :: encodeBytesToText rest

/-- Modelled from the spec: base64 decoding, the inverse transcoding.
Fails on malformed text (wrong length, character outside the alphabet,
padding not at the very end). -/
def decodeTextToBytes : List Char → Option (List Nat)
  | [] => some []
  | c1 :: c2 :: c3 :: c4 :: rest =>
      match decChar c1, decChar c2 with
      | some s1, some s2 =>
          if c3 = '=' then
            if c4 = '=' ∧ rest = [] then some [s1 * 4 + s2 / 16] else none
          else
            match decChar c3 with
            | some s3 =>
                if c4 = '=' then
                  if rest = [] then some [s1 * 4 + s2 / 16, s2 % 16 * 16 + s3 / 4] else none
                else
                  match decChar c4 with
                  | some s4 =>
                      (decodeTextToBytes rest).map
                        (fun bs => (s1 * 4 + s2 / 16) :: (s2 % 16 * 16 + s3 / 4) ::
                                   (s3 % 4 * 64 + s4) :: bs)
                  | none => none
            | none => none
      | _, _ => none
  | _ => none

/-! ## Data model (`src/types.ts` and the component state of `src/App.tsx`) -/

/-- The `type` field of `RecitationMessage` (`'user' | 'bot'`). -/
inductive MsgType where
  | user
  | bot
deriving DecidableEq, Repr

/-- `RecitationMessage` from `src/types.ts` (the fields the core logic uses). -/
structure RecitationMessage where
  id : String
  mtype : MsgType
  text : String
  isError : Bool
  timestamp : Nat
deriving DecidableEq, Repr

/-- `AppState` from `src/types.ts`. -/
inductive AppSt where
  | IDLE
  | PREPARING
  | RECITING
  | ERROR
deriving DecidableEq, Repr

/-- One `LiveServerMessage` as consumed by the `onmessage` callback: the four
fields the handler destructures, plus the `interrupted` flag that the wire
protocol carries but the handler never reads. An inbound audio part is
modelled by the duration of its decoded buffer. -/
structure Message where
  audioDur : Option ℚ
  inputTranscript : Option String
  outputTranscript : Option String
  turnComplete : Bool
  interrupted : Bool
deriving DecidableEq

/-- The mutable component state of `App` in `src/App.tsx`: React state,
refs, and the observable side-effect logs (`schedule` records every
`source.start(t)` call as a (start, duration) pair; `vibrations` records
every `navigator.vibrate(pattern)` call). -/
structure Model where
  selectedSurah : Option Nat
  appState : AppSt
  messages : List RecitationMessage
  error : Option String
  audioLevel : ℚ
  nextStartTime : ℚ
  schedule : List (ℚ × ℚ)
  sources : List Nat
  nextSourceId : Nat
  stream : Option (List Bool)
  inputCtxOpen : Bool
  currentInputText : String
  currentOutputText : String
  vibrations : List (List Nat)
deriving DecidableEq

/-- The initial component state (fresh mount: `useState`/`useRef` initials). -/
def initModel : Model :=
  { selectedSurah := none
    appState := .IDLE
    messages := []
    error := none
    audioLevel := 0
    nextStartTime := 0
    schedule := []
    sources := []
    nextSourceId := 0
    stream := none
    inputCtxOpen := false
    currentInputText := ""
    currentOutputText := ""
    vibrations := [] }

/-! ## Substring containment (the `String.prototype.includes` calls) -/

/-- Does the needle occur at the head of the haystack? -/
def leadsWith : List Char → List Char → Bool
  | [], _ => true
  | _ :: _, [] => false
  | a :: as, b :: bs => a == b && leadsWith as bs

/-- Does the needle occur anywhere inside the haystack?
Mirrors JavaScript `hay.includes(needle)`. -/
def hasInfix : List Char → List Char → Bool
  | hay, needle =>
      leadsWith needle hay ||
        match hay with
        | [] => false
        | _ :: t => hasInfix t needle

/-- `hay.includes(needle)` on strings. -/
def strContains (hay needle : String) : Bool :=
  hasInfix hay.toList needle.toList

/-! ## The `onmessage` callback (src/App.tsx lines 155-206)

The handler checks four independent conditions in source order: an inbound
audio part, an input-transcription delta, an output-transcription delta and
the turn-complete marker. Each is one step function below; `onMessage`
composes them in the source's order. `cv` is the truthiness of
`navigator.vibrate`, `now` is `Date.now()`, `clock` is
`outputAudioContext.currentTime`. -/

/-- Audio branch: `nextStartTime := max(nextStartTime, clock)`, schedule the
decoded buffer at that time (`source.start`), advance `nextStartTime` by its
duration, add the new source to the active set, register its `ended`
self-removal listener. -/
def audioStep (clock : ℚ) (m : Message) (st : Model) : Model :=
  match m.audioDur with
  | none => st
  | some d =>
      let t := max st.nextStartTime clock
      { st with nextStartTime := t + d
                schedule := st.schedule ++ [(t, d)]
                sources := st.sources ++ [st.nextSourceId]
                nextSourceId := st.nextSourceId + 1 }

/-- Input-transcription branch: append the delta to `currentInputText`,
drop any previous `live-input` message and append the refreshed one. -/
def inputStep (now : Nat) (m : Message) (st : Model) : Model :=
  match m.inputTranscript with
  | none => st
  | some delta =>
      let acc := st.currentInputText ++ delta
      { st with currentInputText := acc
                messages := st.messages.filter (fun mm => mm.id != "live-input") ++
                  [{ id := "live-input", mtype := .user, text := acc,
                     isError := false, timestamp := now }] }

/-- The two warning marker words searched for by the handler. -/
def warnMarker : String := "تنبيه"

/-- The second marker word (the word for "mistake"). -/
def errMarker : String := "خطأ"

/-- Output-transcription branch: append the delta to `currentOutputText`,
flag the message as a warning when the accumulated text contains one of the
marker words, vibrate (pattern `[100, 50, 100]`) when flagged and the
platform supports it, and replace the `live-output` message. -/
def outputStep (cv : Bool) (now : Nat) (m : Message) (st : Model) : Model :=
  match m.outputTranscript with
  | none => st
  | some delta =>
      let acc := st.currentOutputText ++ delta
      let isWarning := strContains acc warnMarker || strContains acc errMarker
      { st with currentOutputText := acc
                vibrations := st.vibrations ++
                  (if isWarning && cv then [[100, 50, 100]] else [])
                messages := st.messages.filter (fun mm => mm.id != "live-output") ++
                  [{ id := "live-output", mtype := .bot, text := acc,
                     isError := isWarning, timestamp := now }] }

/-- Turn-complete branch: finalize the two live messages by renaming their
ids with the current timestamp, and clear both accumulators. -/
def turnStep (now : Nat) (m : Message) (st : Model) : Model :=
  if m.turnComplete then
    { st with
      messages := st.messages.map (fun mm =>
        if mm.id = "live-input" then { mm with id := "final-input-" ++ toString now }
        else if mm.id = "live-output" then { mm with id := "final-output-" ++ toString now }
        else mm)
      currentInputText := ""
      currentOutputText := "" }
  else st

/-- The whole `onmessage` handler. Note that `m.interrupted` is not read
anywhere: the handler has no barge-in branch. -/
def onMessage (cv : Bool) (now : Nat) (clock : ℚ) (m : Message) (st : Model) : Model :=
  turnStep now m (outputStep cv now m (inputStep now m (audioStep clock m st)))

/-! ## Lifecycle (src/App.tsx lines 74-91 and 93-101, 214-217) -/

/-- `stopRecitation` (lines 74-91): stop every microphone track, close the
input audio context, stop every scheduled source (each `source.stop()` is
wrapped in try/catch, so stopping an already-finished source is a no-op, not
an error), clear the active set, return to `IDLE`, clear both transcript
accumulators and zero the audio level. `nextStartTimeRef`, `messages` and
`error` are left untouched. -/
def stopRecitation (st : Model) : Model :=
  { st with
    stream := st.stream.map (fun tracks => tracks.map (fun _ => false))
    inputCtxOpen := false
    sources := []
    appState := .IDLE
    currentInputText := ""
    currentOutputText := ""
    audioLevel := 0 }

/-- The error message set by the `catch` block of `startRecitation`
(microphone access refused). -/
def micDeniedMessage : String := "يجب السماح بالوصول للميكروفون لبدء التسميع."

/-- The generic message set by the session's `onerror` callback. -/
def systemErrorMessage : String := "عذراً، حدث خطأ في النظام الذكي. جرب مرة أخرى."

/-- The session `onerror` callback: set the generic error message, then run
`stopRecitation`. -/
def onSessionError (st : Model) : Model :=
  stopRecitation { st with error := some systemErrorMessage }

/-- The synchronous entry of `startRecitation` (lines 93-117): bail out when
no surah is selected (`if (!selectedSurah) return`); otherwise move to
`PREPARING`, clear the error, the message list and both accumulators, open
the input audio context, then request the microphone. `micResult` is the
outcome of `getUserMedia`: on rejection the `catch` block sets the
microphone message and returns to `IDLE`; on success the stream is stored
and the session connect is left pending. There is no guard on the current
app state. -/
def startRecitation (micResult : Except Unit (List Bool)) (st : Model) : Model :=
  if st.selectedSurah = none then st
  else
    let st1 := { st with appState := AppSt.PREPARING
                         error := none
                         messages := []
                         currentInputText := ""
                         currentOutputText := ""
                         inputCtxOpen := true }
    match micResult with
    | .error _ => { st1 with appState := .IDLE, error := some micDeniedMessage }
    | .ok tracks => { st1 with stream := some tracks }

/-! ## Event traces -/

/-- One externally-triggered step of the component: a server message, the
`ended` event of a scheduled source, the stop button, the start button
(with the microphone outcome), or selecting a surah. -/
inductive Ev where
  | msg (cv : Bool) (now : Nat) (clock : ℚ) (m : Message)
  | sourceEnded (i : Nat)
  | stop
  | start (micOk : Bool) (tracks : List Bool)
  | select (s : Option Nat)

/-- Apply one event. The `ended` listener (line 164) deletes its own source
from the active set. -/
def step : Ev → Model → Model
  | .msg cv now clock m, st => onMessage cv now clock m st
  | .sourceEnded i, st => { st with sources := st.sources.filter (fun j => j != i) }
  | .stop, st => stopRecitation st
  | .start micOk tracks, st =>
      startRecitation (if micOk then .ok tracks else .error ()) st
  | .select s, st => { st with selectedSurah := s }

/-- Run a trace of events. -/
def runE : List Ev → Model → Model
  | [], st => st
  | e :: rest, st => runE rest (step e st)

/-- A server message carrying only an audio fragment of duration `d`. -/
def audioMsg (d : ℚ) : Message :=
  { audioDur := some d, inputTranscript := none, outputTranscript := none,
    turnComplete := false, interrupted := false }

/-- A server message carrying only an input-transcription delta. -/
def inputMsg (delta : String) : Message :=
  { audioDur := none, inputTranscript := some delta, outputTranscript := none,
    turnComplete := false, interrupted := false }

/-- A server message carrying only an output-transcription delta. -/
def outputMsg (delta : String) : Message :=
  { audioDur := none, inputTranscript := none, outputTranscript := some delta,
    turnComplete := false, interrupted := false }

/-- A server message carrying only the turn-complete marker. -/
def turnMsg : Message :=
  { audioDur := none, inputTranscript := none, outputTranscript := none,
    turnComplete := true, interrupted := false }

/-- A server message carrying only the interruption (barge-in) signal. -/
def interruptMsg : Message :=
  { audioDur := none, inputTranscript := none, outputTranscript := none,
    turnComplete := false, interrupted := true }

/-- The trace of audio-only messages for a list of (clock, duration)
fragments. -/
def audioTrace (frags : List (ℚ × ℚ)) : List Ev :=
  frags.map (fun p => Ev.msg false 0 p.1 (audioMsg p.2))

/-- The start times the scheduler produces from track-end time `t` for
fragments given as (clock-at-enqueue, duration) pairs: each start is
`max t clock` and the track end advances by the duration. Pure mirror of
the audio branch, used to reason about `Model.schedule`. -/
def schedStarts (t : ℚ) : List (ℚ × ℚ) → List ℚ
  | [] => []
  | p :: rest => max t p.1 :: schedStarts (max t p.1 + p.2) rest

/-- The start times logged in the schedule after running the audio trace
from a fresh component. -/
def startsOf (frags : List (ℚ × ℚ)) : List ℚ :=
  ((runE (audioTrace frags) initModel).schedule).map Prod.fst

/-- Does an event enqueue an audio fragment (a message carrying audio)? -/
def isEnqEv : Ev → Bool
  | .msg _ _ _ m => m.audioDur.isSome
  | _ => false

/-- Number of enqueued fragments in a trace (messages carrying audio). -/
def countEnq (evs : List Ev) : Nat :=
  evs.countP isEnqEv

/-- Number of messages in a display list bearing a given id. -/
def idCount (idStr : String) (msgs : List RecitationMessage) : Nat :=
  msgs.countP (fun m => m.id == idStr)

/-- At most one live message per role in the display list. -/
def atMostOneLive (st : Model) : Prop :=
  idCount "live-input" st.messages ≤ 1 ∧ idCount "live-output" st.messages ≤ 1

/-- Active sources are allocated ids, each present at most once. -/
def sourcesInv (st : Model) : Prop :=
  (∀ i ∈ st.sources, i < st.nextSourceId) ∧ st.sources.Nodup

/-- Turn scenario of the spec: two user transcript deltas, then turn
completion. -/
def c3Scenario : List Ev :=
  [Ev.msg false 5 0 (inputMsg "ا"),
   Ev.msg false 6 0 (inputMsg "لسلام"),
   Ev.msg false 7 0 turnMsg]

/-- A component state mid-session: a surah selected, actively reciting, one
finalized message on screen. -/
def recitingState : Model :=
  { initModel with
    selectedSurah := some 1
    appState := .RECITING
    messages := [{ id := "final-input-1", mtype := .user, text := "بسم الله",
                   isError := false, timestamp := 1 }] }

/-- The component state after one 1-second fragment was enqueued on a fresh
session (clock at 0). -/
def oneFragmentState : Model :=
  onMessage false 0 0 (audioMsg 1) initModel

/-- Three 1-second fragments, all enqueued at output-clock time 0 (enqueues
far faster than playback). -/
def fragsEx : List (ℚ × ℚ) := [(0, 1), (0, 1), (0, 1)]

/-! ## Theorems -/

/-- A string with a longer mandatory head differs from a shorter string. -/
theorem append_ne_of_longer (p s t : String) (h : t.length < p.length) :
    p ++ s ≠ t := by
  intro he
  have h2 := congrArg String.length he
  rw [String.length_append] at h2
  omega

/-- C4: `stopRecitation` is idempotent and safe from any state (including a
never-started one): it always lands in `IDLE` with every scheduled source
stopped and cleared, both transcript accumulators reset, the audio level
zeroed and every microphone track stopped. -/
theorem stop_idempotent_and_total (st : Model) :
    stopRecitation (stopRecitation st) = stopRecitation st ∧
    (stopRecitation st).appState = .IDLE ∧
    (stopRecitation st).sources = [] ∧
    (stopRecitation st).currentInputText = "" ∧
    (stopRecitation st).currentOutputText = "" ∧
    (stopRecitation st).audioLevel = 0 ∧
    ∀ b ∈ ((stopRecitation st).stream.getD []), b = false := by
  refine ⟨?_, rfl, rfl, rfl, rfl, rfl, ?_⟩
  · simp [stopRecitation, Option.map_map, List.map_map, Function.comp_def]
  · intro b hb
    rcases hst : st.stream with _ | tracks <;>
      simp [stopRecitation, hst] at hb
    exact hb.2

/-- C4 witness: stopping a never-started component. -/
theorem stop_idempotent_and_total_witness :
    stopRecitation (stopRecitation initModel) = stopRecitation initModel ∧
    (stopRecitation initModel).appState = .IDLE ∧
    (stopRecitation initModel).sources = [] ∧
    (stopRecitation initModel).currentInputText = "" ∧
    (stopRecitation initModel).currentOutputText = "" ∧
    (stopRecitation initModel).audioLevel = 0 ∧
    ∀ b ∈ ((stopRecitation initModel).stream.getD []), b = false :=
  stop_idempotent_and_total initModel

/-- C5: when the microphone is denied during start (with a surah selected),
the state lands at `IDLE` (not stuck in `PREPARING`), the session never
starts, and the surfaced error is the microphone-specific permission
message, which is distinct from the generic session-failure message. -/
theorem mic_denied_goes_idle (st : Model) (s : Nat)
    (h : st.selectedSurah = some s) :
    (startRecitation (.error ()) st).appState = .IDLE ∧
    (startRecitation (.error ()) st).appState ≠ .PREPARING ∧
    (startRecitation (.error ()) st).appState ≠ .RECITING ∧
    (startRecitation (.error ()) st).error = some micDeniedMessage ∧
    micDeniedMessage ≠ systemErrorMessage := by
  simp [startRecitation, h]
  decide

/-- C5 witness: denial on a fresh component with surah 1 selected. -/
theorem mic_denied_goes_idle_witness :
    (startRecitation (.error ()) { initModel with selectedSurah := some 1 }).appState = .IDLE ∧
    (startRecitation (.error ()) { initModel with selectedSurah := some 1 }).appState ≠ .PREPARING ∧
    (startRecitation (.error ()) { initModel with selectedSurah := some 1 }).appState ≠ .RECITING ∧
    (startRecitation (.error ()) { initModel with selectedSurah := some 1 }).error = some micDeniedMessage ∧
    micDeniedMessage ≠ systemErrorMessage :=
  mic_denied_goes_idle { initModel with selectedSurah := some 1 } 1 rfl

/-- C6 counterexample: `startRecitation` is not a no-op outside `IDLE`.
Called while `RECITING` with a surah selected, it changes the state (moves
to `PREPARING` and wipes the on-screen messages), refuting the claimed
"no-op if not currently Idle" guard. -/
theorem start_not_guarded_on_state :
    startRecitation (.ok [true]) recitingState ≠ recitingState ∧
    (startRecitation (.ok [true]) recitingState).appState = .PREPARING ∧
    recitingState.appState = .RECITING ∧
    (startRecitation (.ok [true]) recitingState).messages = [] ∧
    recitingState.messages ≠ [] := by
  have hmsg : (startRecitation (.ok [true]) recitingState).messages = [] := by
    simp [startRecitation, recitingState, initModel]
  refine ⟨?_, ?_, rfl, hmsg, by simp [recitingState]⟩
  · intro he
    have := congrArg Model.messages he
    rw [hmsg] at this
    simp [recitingState] at this
  · simp [startRecitation, recitingState, initModel]

/-- C6 (amended): the only guard of `startRecitation` is the selection
guard — with no surah selected it is a strict no-op, from any state and for
any microphone outcome. -/
theorem start_noop_without_selection (st : Model)
    (micResult : Except Unit (List Bool)) (h : st.selectedSurah = none) :
    startRecitation micResult st = st := by
  simp [startRecitation, h]

/-- C6 amended witness: a fresh component has no selection. -/
theorem start_noop_without_selection_witness :
    startRecitation (.ok [true]) initModel = initModel :=
  start_noop_without_selection initModel (.ok [true]) rfl

/-- C10: entering a session through `startRecitation` with a surah selected
and the microphone granted resets the display transcript, clears any prior
error and resets both transcript accumulators (all before the remote
session is opened), so no content of a previous session survives. -/
theorem start_resets_session_views (st : Model) (s : Nat) (tracks : List Bool)
    (h : st.selectedSurah = some s) :
    (startRecitation (.ok tracks) st).messages = [] ∧
    (startRecitation (.ok tracks) st).error = none ∧
    (startRecitation (.ok tracks) st).currentInputText = "" ∧
    (startRecitation (.ok tracks) st).currentOutputText = "" ∧
    (startRecitation (.ok tracks) st).appState = .PREPARING := by
  simp [startRecitation, h]

/-- C2 counterexample: with one not-yet-played scheduled fragment pending
(active set `[0]`, track end at 1), an `Interrupted` message arriving at
output-clock time 1/2 leaves the active set nonempty and the track end at
the stale value 1 — the claimed purge and timeline reset do not happen. -/
theorem interrupted_not_handled :
    oneFragmentState.sources = [0] ∧
    oneFragmentState.nextStartTime = 1 ∧
    (onMessage false 0 (1/2) interruptMsg oneFragmentState).sources ≠ [] ∧
    (onMessage false 0 (1/2) interruptMsg oneFragmentState).sources = [0] ∧
    (onMessage false 0 (1/2) interruptMsg oneFragmentState).nextStartTime = 1 := by
  have hbase : oneFragmentState.sources = [0] ∧ oneFragmentState.nextStartTime = 1 := by
    constructor
    · rfl
    · show max (0 : ℚ) 0 + 1 = 1
      norm_num
  have hid : onMessage false 0 (1/2) interruptMsg oneFragmentState = oneFragmentState := by
    simp [onMessage, audioStep, inputStep, outputStep, turnStep, interruptMsg]
  refine ⟨hbase.1, hbase.2, ?_, ?_, ?_⟩ <;> rw [hid]
  · rw [hbase.1]; simp
  · exact hbase.1
  · exact hbase.2

/-- C2 (amended): the `onmessage` handler has no barge-in branch — a message
carrying only the interruption signal changes nothing at all; scheduled
audio is stopped and the active set cleared only by `stopRecitation`, which
moreover leaves `nextStartTime` at its stale value rather than resetting
the timeline. -/
theorem interrupted_is_ignored (st : Model) (cv : Bool) (now : Nat) (clock : ℚ) :
    onMessage cv now clock interruptMsg st = st ∧
    (stopRecitation st).sources = [] ∧
    (stopRecitation st).nextStartTime = st.nextStartTime := by
  refine ⟨?_, rfl, rfl⟩
  simp [onMessage, audioStep, inputStep, outputStep, turnStep, interruptMsg]

/-- C8: appending an assistant transcript delta yields a live assistant
message placed last in the display list whose `isError` flag is set exactly
when the accumulated text contains one of the two Arabic marker words, and
the `[100, 50, 100]` vibration fires exactly when the message is flagged
and the platform supports vibration (a no-op otherwise). -/
theorem warning_flag_and_haptics (st : Model) (cv : Bool) (now : Nat)
    (clock : ℚ) (delta : String) :
    ∃ m : RecitationMessage,
      (onMessage cv now clock (outputMsg delta) st).messages.getLast? = some m ∧
      m.id = "live-output" ∧
      m.mtype = .bot ∧
      m.text = st.currentOutputText ++ delta ∧
      m.isError = (strContains (st.currentOutputText ++ delta) warnMarker ||
                   strContains (st.currentOutputText ++ delta) errMarker) ∧
      (onMessage cv now clock (outputMsg delta) st).vibrations =
        st.vibrations ++ (if m.isError && cv then [[100, 50, 100]] else []) := by
  refine ⟨{ id := "live-output", mtype := .bot, text := st.currentOutputText ++ delta,
            isError := strContains (st.currentOutputText ++ delta) warnMarker ||
                       strContains (st.currentOutputText ++ delta) errMarker,
            timestamp := now }, ?_, rfl, rfl, rfl, rfl, ?_⟩ <;>
    simp [onMessage, audioStep, inputStep, outputStep, turnStep, outputMsg]

/-- A finalized input id never collides with the live input id. -/
theorem final_input_ne_live_input (s : String) :
    ("final-input-" ++ s) ≠ "live-input" :=
  append_ne_of_longer _ s _ (by decide)

/-- A finalized output id never collides with the live input id. -/
theorem final_output_ne_live_input (s : String) :
    ("final-output-" ++ s) ≠ "live-input" :=
  append_ne_of_longer _ s _ (by decide)

/-- A finalized input id never collides with the live output id. -/
theorem final_input_ne_live_output (s : String) :
    ("final-input-" ++ s) ≠ "live-output" :=
  append_ne_of_longer _ s _ (by decide)

/-- A finalized output id never collides with the live output id. -/
theorem final_output_ne_live_output (s : String) :
    ("final-output-" ++ s) ≠ "live-output" :=
  append_ne_of_longer _ s _ (by decide)

/-- Dropping every message with a given id leaves none with that id. -/
theorem idCount_filter_self (msgs : List RecitationMessage) (idStr : String) :
    idCount idStr (msgs.filter (fun mm => mm.id != idStr)) = 0 := by
  rw [idCount, List.countP_eq_zero]
  intro a ha
  rw [List.mem_filter] at ha
  simpa using ha.2

/-- Filtering never increases an id count. -/
theorem idCount_filter_le (msgs : List RecitationMessage) (idStr : String)
    (p : RecitationMessage → Bool) :
    idCount idStr (msgs.filter p) ≤ idCount idStr msgs :=
  (List.filter_sublist msgs).countP_le _

/-- Id counts add over appended lists. -/
theorem idCount_append (l1 l2 : List RecitationMessage) (idStr : String) :
    idCount idStr (l1 ++ l2) = idCount idStr l1 + idCount idStr l2 := by
  simp [idCount, List.countP_append]

/-- Finalizing a turn leaves no live message of either role. -/
theorem idCount_turnStep_finalize (msgs : List RecitationMessage) (now : Nat) :
    idCount "live-input" (msgs.map (fun mm =>
      if mm.id = "live-input" then { mm with id := "final-input-" ++ toString now }
      else if mm.id = "live-output" then { mm with id := "final-output-" ++ toString now }
      else mm)) = 0 ∧
    idCount "live-output" (msgs.map (fun mm =>
      if mm.id = "live-input" then { mm with id := "final-input-" ++ toString now }
      else if mm.id = "live-output" then { mm with id := "final-output-" ++ toString now }
      else mm)) = 0 := by
  constructor <;>
  · rw [idCount, List.countP_map, List.countP_eq_zero]
    intro a _
    by_cases h1 : a.id = "live-input" <;> by_cases h2 : a.id = "live-output" <;>
      simp [h1, h2, Function.comp, final_input_ne_live_input,
        final_output_ne_live_input, final_input_ne_live_output,
        final_output_ne_live_output]

/-- Every single event preserves the at-most-one-live-message-per-role
invariant of the display list. -/
theorem atMostOneLive_step (e : Ev) (st : Model) (h : atMostOneLive st) :
    atMostOneLive (step e st) := by
  obtain ⟨hin, hout⟩ := h
  cases e with
  | msg cv now clock m =>
      show atMostOneLive (turnStep now m (outputStep cv now m (inputStep now m (audioStep clock m st))))
      have h0 : atMostOneLive (audioStep clock m st) := by
        cases ha : m.audioDur <;> simp [atMostOneLive, audioStep, ha] <;>
          exact ⟨hin, hout⟩
      obtain ⟨hin0, hout0⟩ := h0
      have h1 : atMostOneLive (inputStep now m (audioStep clock m st)) := by
        cases hi : m.inputTranscript with
        | none => exact ⟨by simpa [inputStep, hi] using hin0, by simpa [inputStep, hi] using hout0⟩
        | some delta =>
            constructor
            · simp only [inputStep, hi]
              rw [idCount_append, idCount_filter_self]
              simp [idCount, List.countP_cons]
            · simp only [inputStep, hi]
              rw [idCount_append]
              have hle := idCount_filter_le (audioStep clock m st).messages "live-output"
                (fun mm => mm.id != "live-input")
              have hsingle : idCount "live-output"
                  [{ id := "live-input", mtype := MsgType.user,
                     text := (audioStep clock m st).currentInputText ++ delta,
                     isError := false, timestamp := now }] = 0 := by
                simp [idCount, List.countP_cons]
              omega
      obtain ⟨hin1, hout1⟩ := h1
      have h2 : atMostOneLive (outputStep cv now m (inputStep now m (audioStep clock m st))) := by
        cases ho : m.outputTranscript with
        | none => exact ⟨by simpa [outputStep, ho] using hin1, by simpa [outputStep, ho] using hout1⟩
        | some delta =>
            constructor
            · simp only [outputStep, ho]
              rw [idCount_append]
              have hle := idCount_filter_le
                (inputStep now m (audioStep clock m st)).messages "live-input"
                (fun mm => mm.id != "live-output")
              have hsingle : idCount "live-input"
                  [{ id := "live-output", mtype := MsgType.bot,
                     text := (inputStep now m (audioStep clock m st)).currentOutputText ++ delta,
                     isError := strContains ((inputStep now m (audioStep clock m st)).currentOutputText ++ delta) warnMarker ||
                       strContains ((inputStep now m (audioStep clock m st)).currentOutputText ++ delta) errMarker,
                     timestamp := now }] = 0 := by
                simp [idCount, List.countP_cons]
              omega
            · simp only [outputStep, ho]
              rw [idCount_append, idCount_filter_self]
              simp [idCount, List.countP_cons]
      obtain ⟨hin2, hout2⟩ := h2
      cases ht : m.turnComplete with
      | false => exact ⟨by simpa [turnStep, ht] using hin2, by simpa [turnStep, ht] using hout2⟩
      | true =>
          have := idCount_turnStep_finalize
            (outputStep cv now m (inputStep now m (audioStep clock m st))).messages now
          exact ⟨by simp [turnStep, ht, this.1], by simp [turnStep, ht, this.2]⟩
  | sourceEnded i => exact ⟨by simpa [step] using hin, by simpa [step] using hout⟩
  | stop => exact ⟨by simpa [step, stopRecitation] using hin,
                   by simpa [step, stopRecitation] using hout⟩
  | start micOk tracks =>
      by_cases hsel : st.selectedSurah = none
      · constructor <;> simp [step, startRecitation, hsel] <;> assumption
      · cases micOk <;>
          constructor <;> simp [step, startRecitation, hsel, idCount]
  | select s => exact ⟨by simpa [step] using hin, by simpa [step] using hout⟩

/-- The invariant holds along any run. -/
theorem atMostOneLive_runE (evs : List Ev) (st : Model) (h : atMostOneLive st) :
    atMostOneLive (runE evs st) := by
  induction evs generalizing st with
  | nil => exact h
  | cons e rest ih => exact ih (step e st) (atMostOneLive_step e st h)

/-- C3: the deltas "ا" then "لسلام" followed by turn completion produce
exactly one message — a finalized user message reading "السلام" — and a
further delta then starts a fresh live message carrying only the new text,
leaving the finalized one untouched; moreover along every event trace the
display list holds at most one live message per role. -/
theorem turn_accumulation :
    (runE c3Scenario initModel).messages =
      [{ id := "final-input-7", mtype := .user, text := "السلام",
         isError := false, timestamp := 6 }] ∧
    (runE (c3Scenario ++ [Ev.msg false 9 0 (inputMsg "سم")]) initModel).messages =
      [{ id := "final-input-7", mtype := .user, text := "السلام",
         isError := false, timestamp := 6 },
       { id := "live-input", mtype := .user, text := "سم",
         isError := false, timestamp := 9 }] ∧
    (∀ evs : List Ev,
      idCount "live-input" (runE evs initModel).messages ≤ 1 ∧
      idCount "live-output" (runE evs initModel).messages ≤ 1) := by
  refine ⟨by decide, by decide, ?_⟩
  intro evs
  exact atMostOneLive_runE evs initModel ⟨by decide, by decide⟩

/-- The input-transcription branch leaves the scheduler fields alone. -/
theorem inputStep_scheduler (now : Nat) (m : Message) (st : Model) :
    (inputStep now m st).sources = st.sources ∧
    (inputStep now m st).nextSourceId = st.nextSourceId := by
  cases h : m.inputTranscript <;> simp [inputStep, h]

/-- The output-transcription branch leaves the scheduler fields alone. -/
theorem outputStep_scheduler (cv : Bool) (now : Nat) (m : Message) (st : Model) :
    (outputStep cv now m st).sources = st.sources ∧
    (outputStep cv now m st).nextSourceId = st.nextSourceId := by
  cases h : m.outputTranscript <;> simp [outputStep, h]

/-- The turn-complete branch leaves the scheduler fields alone. -/
theorem turnStep_scheduler (now : Nat) (m : Message) (st : Model) :
    (turnStep now m st).sources = st.sources ∧
    (turnStep now m st).nextSourceId = st.nextSourceId := by
  cases h : m.turnComplete <;> simp [turnStep, h]

/-- `startRecitation` leaves the scheduler fields alone. -/
theorem startRecitation_scheduler (r : Except Unit (List Bool)) (st : Model) :
    (startRecitation r st).sources = st.sources ∧
    (startRecitation r st).nextSourceId = st.nextSourceId := by
  by_cases h : st.selectedSurah = none
  · simp [startRecitation, h]
  · cases r <;> simp [startRecitation, h]

/-- The scheduler fields of a whole message step are those of its audio
branch. -/
theorem onMessage_scheduler (cv : Bool) (now : Nat) (clock : ℚ) (m : Message)
    (st : Model) :
    (onMessage cv now clock m st).sources = (audioStep clock m st).sources ∧
    (onMessage cv now clock m st).nextSourceId = (audioStep clock m st).nextSourceId := by
  rw [onMessage]
  rw [(turnStep_scheduler ..).1, (outputStep_scheduler ..).1, (inputStep_scheduler ..).1,
      (turnStep_scheduler ..).2, (outputStep_scheduler ..).2, (inputStep_scheduler ..).2]
  exact ⟨rfl, rfl⟩

/-- Every event preserves the active-set invariant: every active source is
an allocated id, present at most once. -/
theorem sourcesInv_step (e : Ev) (st : Model) (h : sourcesInv st) :
    sourcesInv (step e st) := by
  obtain ⟨hb, hn⟩ := h
  cases e with
  | msg cv now clock m =>
      show sourcesInv (onMessage cv now clock m st)
      rw [sourcesInv, (onMessage_scheduler ..).1, (onMessage_scheduler ..).2]
      cases ha : m.audioDur with
      | none => exact ⟨by simpa [audioStep, ha] using hb, by simpa [audioStep, ha] using hn⟩
      | some d =>
          constructor
          · intro i hi
            simp only [audioStep, ha] at hi ⊢
            rcases List.mem_append.mp hi with hold | hnew
            · exact Nat.lt_succ_of_lt (hb i hold)
            · simp at hnew
              omega
          · simp only [audioStep, ha]
            rw [List.nodup_append]
            refine ⟨hn, List.nodup_singleton _, ?_⟩
            intro i hi hmem
            simp at hmem
            subst hmem
            exact absurd (hb _ hi) (by omega)
  | sourceEnded i =>
      constructor
      · intro j hj
        simp only [step] at hj
        exact hb j (List.mem_of_mem_filter hj)
      · exact hn.filter _
  | stop => exact ⟨by simp [step, stopRecitation], by simp [step, stopRecitation]⟩
  | start micOk tracks =>
      show sourcesInv (startRecitation _ st)
      rw [sourcesInv, (startRecitation_scheduler ..).1, (startRecitation_scheduler ..).2]
      exact ⟨hb, hn⟩
  | select s => exact ⟨by simpa [step] using hb, by simpa [step] using hn⟩

/-- The active-set invariant holds along any run. -/
theorem sourcesInv_runE (evs : List Ev) (st : Model) (h : sourcesInv st) :
    sourcesInv (runE evs st) := by
  induction evs generalizing st with
  | nil => exact h
  | cons e rest ih => exact ih (step e st) (sourcesInv_step e st h)

/-- Each event bumps the id counter exactly when it enqueues audio. -/
theorem step_nextSourceId (e : Ev) (st : Model) :
    (step e st).nextSourceId = st.nextSourceId + (if isEnqEv e then 1 else 0) := by
  cases e with
  | msg cv now clock m =>
      rw [show step (Ev.msg cv now clock m) st = onMessage cv now clock m st from rfl,
        (onMessage_scheduler ..).2]
      cases ha : m.audioDur <;> simp [audioStep, ha, isEnqEv]
  | sourceEnded i => simp [step, isEnqEv]
  | stop => simp [step, stopRecitation, isEnqEv]
  | start micOk tracks =>
      rw [show step (Ev.start micOk tracks) st = startRecitation _ st from rfl,
        (startRecitation_scheduler ..).2]
      simp [isEnqEv]
  | select s => simp [step, isEnqEv]

/-- The id counter counts exactly the enqueued fragments of the run. -/
theorem runE_nextSourceId (evs : List Ev) (st : Model) :
    (runE evs st).nextSourceId = st.nextSourceId + countEnq evs := by
  induction evs generalizing st with
  | nil => simp [runE, countEnq]
  | cons e rest ih =>
      rw [runE, ih, step_nextSourceId]
      simp only [countEnq, List.countP_cons]
      omega

/-- Runs compose over concatenated traces. -/
theorem runE_append (l1 l2 : List Ev) (st : Model) :
    runE (l1 ++ l2) st = runE l2 (runE l1 st) := by
  induction l1 generalizing st with
  | nil => rfl
  | cons e rest ih => rw [List.cons_append, runE, runE, ih]

/-- Processing the `ended` events of a list of ids removes exactly those
ids from the active set. -/
theorem runE_ended_drain (l : List Nat) (st : Model) :
    (runE (l.map Ev.sourceEnded) st).sources =
      st.sources.filter (fun i => !(l.contains i)) := by
  induction l generalizing st with
  | nil => simp [runE]
  | cons a rest ih =>
      rw [List.map_cons, runE, ih]
      show ((st.sources.filter (fun j => j != a)).filter (fun i => !(rest.contains i))) = _
      rw [List.filter_filter]
      apply List.filter_congr
      intro x _
      cases h1 : x == a <;> cases h2 : rest.contains x <;>
        simp_all [List.contains_cons, bne, List.elem_iff]

/-- C9: a finished source removes itself from the active set; consequently,
along any trace, the active set holds only allocated (still-pending)
sources without duplication — it is bounded by the number of enqueues, and
once the `ended` event of every allocated source has been processed the set
is empty, so it cannot grow without bound. -/
theorem active_set_self_removal :
    (∀ (st : Model) (i : Nat), i ∉ (step (Ev.sourceEnded i) st).sources) ∧
    (∀ (evs : List Ev), ∀ i ∈ (runE evs initModel).sources, i < countEnq evs) ∧
    (∀ evs : List Ev, (runE evs initModel).sources.Nodup) ∧
    (∀ evs : List Ev,
      (runE (evs ++ (List.range (countEnq evs)).map Ev.sourceEnded) initModel).sources = []) := by
  have hinit : sourcesInv initModel := ⟨by simp [initModel], by simp [initModel]⟩
  have hbound : ∀ (evs : List Ev), ∀ i ∈ (runE evs initModel).sources, i < countEnq evs := by
    intro evs i hi
    have hv := (sourcesInv_runE evs initModel hinit).1 i hi
    rw [runE_nextSourceId] at hv
    simpa [initModel] using hv
  refine ⟨?_, hbound, ?_, ?_⟩
  · intro st i
    simp [step, List.mem_filter]
  · intro evs
    exact (sourcesInv_runE evs initModel hinit).2
  · intro evs
    rw [runE_append, runE_ended_drain, List.filter_eq_nil_iff]
    intro a ha
    have hlt := hbound evs a ha
    simp [List.elem_iff, List.mem_range]
    exact hlt

/-- C9 witness: the one enqueued fragment of a one-message trace is in the
active set, hence allocated. -/
theorem active_set_self_removal_witness :
    (0 : Nat) < countEnq [Ev.msg false 0 0 (audioMsg 1)] :=
  active_set_self_removal.2.1 [Ev.msg false 0 0 (audioMsg 1)] 0 (by
    have hs : (runE [Ev.msg false 0 0 (audioMsg 1)] initModel).sources = [0] := rfl
    rw [hs]
    simp)

/-- A message carrying only audio reduces to the audio branch. -/
theorem onMessage_audio_only (cv : Bool) (now : Nat) (clock d : ℚ) (st : Model) :
    onMessage cv now clock (audioMsg d) st = audioStep clock (audioMsg d) st := rfl

/-- Running an audio-only trace appends exactly the scheduler's start
times, as computed by `schedStarts` from the current track-end time. -/
theorem runE_audioTrace_schedule (frags : List (ℚ × ℚ)) :
    ∀ st : Model,
      ((runE (audioTrace frags) st).schedule).map Prod.fst =
        st.schedule.map Prod.fst ++ schedStarts st.nextStartTime frags := by
  induction frags with
  | nil => intro st; simp [audioTrace, runE, schedStarts]
  | cons p rest ih =>
      intro st
      rw [audioTrace, List.map_cons, runE,
        show step (Ev.msg false 0 p.1 (audioMsg p.2)) st = audioStep p.1 (audioMsg p.2) st
          from onMessage_audio_only ..]
      rw [show audioTrace rest = rest.map (fun p => Ev.msg false 0 p.1 (audioMsg p.2)) from rfl]
        at ih
      rw [ih]
      simp [audioStep, audioMsg, schedStarts]

/-- The logged start times of a fresh run are `schedStarts` from zero. -/
theorem startsOf_eq_schedStarts (frags : List (ℚ × ℚ)) :
    startsOf frags = schedStarts 0 frags := by
  rw [startsOf, runE_audioTrace_schedule]
  simp [initModel]

/-- Consecutive scheduled start times: each next start is the maximum of
the previous slot's end and the clock at its enqueue. -/
theorem schedStarts_getD_succ :
    ∀ (i : Nat) (l : List (ℚ × ℚ)) (t : ℚ), i + 1 < l.length →
      (schedStarts t l).getD (i+1) 0 =
        max ((schedStarts t l).getD i 0 + (l.getD i (0, 0)).2) ((l.getD (i+1) (0, 0)).1) := by
  intro i
  induction i with
  | zero =>
      intro l t h
      match l with
      | [] => simp at h
      | [p] => simp at h
      | p :: q :: r => simp [schedStarts]
  | succ i ih =>
      intro l t h
      match l with
      | [] => simp at h
      | p :: rest =>
          have hr : i + 1 < rest.length := by
            simp only [List.length_cons] at h
            omega
          rw [schedStarts, List.getD_cons_succ, List.getD_cons_succ,
            List.getD_cons_succ, List.getD_cons_succ]
          exact ih rest (max t p.1 + p.2) hr

/-- Extending a prefix sum of durations by one more fragment. -/
theorem take_map_snd_sum_succ :
    ∀ (l : List (ℚ × ℚ)) (n : Nat), n < l.length →
      ((l.take (n+1)).map Prod.snd).sum =
        ((l.take n).map Prod.snd).sum + (l.getD n (0, 0)).2 := by
  intro l
  induction l with
  | nil => intro n h; simp at h
  | cons p rest ih =>
      intro n h
      cases n with
      | zero => simp
      | succ n =>
          have hr : n < rest.length := by
            simp only [List.length_cons] at h
            omega
          rw [List.take_succ_cons, List.take_succ_cons, List.map_cons, List.map_cons,
            List.sum_cons, List.sum_cons, List.getD_cons_succ, ih n hr]
          ring

/-- When every enqueue happens no later than the previous slot's end (the
clock never overtakes the track end), the n-th start is the first start
plus the sum of the prior durations. -/
theorem schedStarts_gapfree (l : List (ℚ × ℚ)) (t : ℚ) (n : Nat) (hn : n < l.length)
    (hfast : ∀ i, i + 1 < l.length →
      (l.getD (i+1) (0, 0)).1 ≤ (schedStarts t l).getD i 0 + (l.getD i (0, 0)).2) :
    (schedStarts t l).getD n 0 =
      (schedStarts t l).getD 0 0 + ((l.take n).map Prod.snd).sum := by
  induction n with
  | zero => simp
  | succ n ih =>
      have hn' : n < l.length := by omega
      rw [schedStarts_getD_succ n l t hn, max_eq_left (hfast n hn), ih hn',
        take_map_snd_sum_succ l n hn']
      ring

/-- C1: each enqueued fragment is scheduled at `max(trackEndTime, clock)`
and advances the track end by its duration; hence over any fragment
sequence in which enqueues arrive no later than the previous slot's end
(arrival faster than playback), the n-th scheduled start equals the first
start plus the sum of the prior n-1 durations — gap-free and
overlap-free. -/
theorem gap_free_scheduling :
    (∀ (st : Model) (cv : Bool) (now : Nat) (clock d : ℚ),
      (onMessage cv now clock (audioMsg d) st).schedule =
        st.schedule ++ [(max st.nextStartTime clock, d)] ∧
      (onMessage cv now clock (audioMsg d) st).nextStartTime =
        max st.nextStartTime clock + d) ∧
    (∀ (frags : List (ℚ × ℚ)) (n : Nat), n < frags.length →
      (∀ i, i + 1 < frags.length →
        (frags.getD (i+1) (0, 0)).1 ≤
          (startsOf frags).getD i 0 + (frags.getD i (0, 0)).2) →
      (startsOf frags).getD n 0 =
        (startsOf frags).getD 0 0 + ((frags.take n).map Prod.snd).sum) := by
  constructor
  · intro st cv now clock d
    rw [onMessage_audio_only]
    exact ⟨rfl, rfl⟩
  · intro frags n hn hfast
    rw [startsOf_eq_schedStarts] at hfast ⊢
    exact schedStarts_gapfree frags 0 n hn hfast

/-- C1 witness: three 1-second fragments enqueued while the clock is still
at 0 occupy starts 0, 1, 2 — the third starts exactly after the first two
durations. -/
theorem gap_free_scheduling_witness :
    (startsOf fragsEx).getD 2 0 =
      (startsOf fragsEx).getD 0 0 + ((fragsEx.take 2).map Prod.snd).sum := by
  have hs : startsOf fragsEx = [0, 1, 2] := by
    rw [startsOf_eq_schedStarts]
    norm_num [fragsEx, schedStarts, max_def]
  refine gap_free_scheduling.2 fragsEx 2 (by norm_num [fragsEx]) ?_
  intro i hi
  have hi2 : i < 2 := by
    simp only [fragsEx, List.length_cons, List.length_nil] at hi
    omega
  interval_cases i <;> rw [hs] <;> simp [fragsEx]

/-- Alphabet lookup inverts alphabet selection on every six-bit value. -/
theorem decChar_encChar : ∀ s : Fin 64, decChar (encChar s.val) = some s.val := by
  decide

/-- No alphabet character is the padding character. -/
theorem encChar_ne_pad : ∀ s : Fin 64, encChar s.val ≠ '=' := by
  decide

/-- C7: decoding an encoded byte sequence recovers it exactly — the
transport transcoding is lossless and invertible on all byte sequences. -/
theorem codec_round_trip (B : List Nat) (hB : ∀ b ∈ B, b < 256) :
    decodeTextToBytes (encodeBytesToText B) = some B := by
  induction B using encodeBytesToText.induct with
  | case1 => rfl
  | case2 b1 =>
      have h1 : b1 < 256 := hB b1 (by simp)
      have e1 : decChar (encChar (b1 / 4)) = some (b1 / 4) :=
        decChar_encChar ⟨b1 / 4, by omega⟩
      have e2 : decChar (encChar (b1 % 4 * 16)) = some (b1 % 4 * 16) :=
        decChar_encChar ⟨b1 % 4 * 16, by omega⟩
      rw [encodeBytesToText, decodeTextToBytes, e1, e2]
      simp
      omega
  | case3 b1 b2 =>
      have h1 : b1 < 256 := hB b1 (by simp)
      have h2 : b2 < 256 := hB b2 (by simp)
      have e1 : decChar (encChar (b1 / 4)) = some (b1 / 4) :=
        decChar_encChar ⟨b1 / 4, by omega⟩
      have e2 : decChar (encChar (b1 % 4 * 16 + b2 / 16)) = some (b1 % 4 * 16 + b2 / 16) :=
        decChar_encChar ⟨b1 % 4 * 16 + b2 / 16, by omega⟩
      have e3 : decChar (encChar (b2 % 16 * 4)) = some (b2 % 16 * 4) :=
        decChar_encChar ⟨b2 % 16 * 4, by omega⟩
      have n3 : encChar (b2 % 16 * 4) ≠ '=' := encChar_ne_pad ⟨b2 % 16 * 4, by omega⟩
      rw [encodeBytesToText, decodeTextToBytes, e1, e2]
      simp [n3, e3]
      constructor <;> omega
  | case4 b1 b2 b3 rest ih =>
      have h1 : b1 < 256 := hB b1 (by simp)
      have h2 : b2 < 256 := hB b2 (by simp)
      have h3 : b3 < 256 := hB b3 (by simp)
      have hrest : ∀ b ∈ rest, b < 256 := fun b hb => hB b (by simp [hb])
      have e1 : decChar (encChar (b1 / 4)) = some (b1 / 4) :=
        decChar_encChar ⟨b1 / 4, by omega⟩
      have e2 : decChar (encChar (b1 % 4 * 16 + b2 / 16)) = some (b1 % 4 * 16 + b2 / 16) :=
        decChar_encChar ⟨b1 % 4 * 16 + b2 / 16, by omega⟩
      have e3 : decChar (encChar (b2 % 16 * 4 + b3 / 64)) = some (b2 % 16 * 4 + b3 / 64) :=
        decChar_encChar ⟨b2 % 16 * 4 + b3 / 64, by omega⟩
      have e4 : decChar (encChar (b3 % 64)) = some (b3 % 64) :=
        decChar_encChar ⟨b3 % 64, by omega⟩
      have n3 : encChar (b2 % 16 * 4 + b3 / 64) ≠ '=' :=
        encChar_ne_pad ⟨b2 % 16 * 4 + b3 / 64, by omega⟩
      have n4 : encChar (b3 % 64) ≠ '=' := encChar_ne_pad ⟨b3 % 64, by omega⟩
      rw [encodeBytesToText, decodeTextToBytes, e1, e2]
      simp [n3, n4, e3, e4, ih hrest]
      refine ⟨by omega, by omega, by omega⟩

/-- C7 witness: a concrete byte sequence survives the round trip. -/
theorem codec_round_trip_witness :
    decodeTextToBytes (encodeBytesToText [0, 255, 100, 7]) = some [0, 255, 100, 7] :=
  codec_round_trip [0, 255, 100, 7] (by decide)

/-- C10 witness: restarting from a dirty state. -/
theorem start_resets_session_views_witness :
    (startRecitation (.ok [true]) { recitingState with error := some "x" }).messages = [] ∧
    (startRecitation (.ok [true]) { recitingState with error := some "x" }).error = none ∧
    (startRecitation (.ok [true]) { recitingState with error := some "x" }).currentInputText = "" ∧
    (startRecitation (.ok [true]) { recitingState with error := some "x" }).currentOutputText = "" ∧
    (startRecitation (.ok [true]) { recitingState with error := some "x" }).appState = .PREPARING :=
  start_resets_session_views { recitingState with error := some "x" } 1 [true] rfl

end Quran
